import Mathlib

/-!
# Verification of the tech-stack expression parser and evaluator

Shallow embedding of the boolean tech-stack filter core
(`TechStackExpressionParser`, `TermExpression`, `NotExpression`,
`AndExpression`, `OrExpression` and their `evaluate`/`parse`/`tokenize`
methods).  Pure functions are translated directly; the parser's mutable
cursor over a token array becomes explicit passing of the remaining token
list; the thrown JavaScript `Error`s become an `Except` over a structured
error type whose `message` function yields exactly the source's message
strings.  The recursive-descent parser is written with an explicit fuel
parameter so that every definition is a computable structural recursion;
a separate theorem shows the fuel bound used by `parse` is never
exhausted, which is the termination argument of the source.
-/

namespace HnHiring

set_option autoImplicit false
set_option maxRecDepth 4000

/-- Model of JavaScript `String.prototype.trim` restricted to the ASCII
whitespace characters it strips (the source only ever feeds it strings
built from user keyboard input; the claims exercise space, tab and
newline). -/
def isJsWhitespace (c : Char) : Bool :=
  c = ' ' || c = '\t' || c = '\n' || c = '\r' || c = '\x0b' || c = '\x0c'

/-- JavaScript `s.trim()`: drop leading and trailing whitespace. -/
def jsTrim (s : String) : String :=
  ⟨((s.data.dropWhile isJsWhitespace).reverse.dropWhile isJsWhitespace).reverse⟩

/-- JavaScript `s.toUpperCase()` on the ASCII range the expressions use. -/
def jsToUpper (s : String) : String :=
  ⟨s.data.map Char.toUpper⟩

/-- JavaScript `s.toLowerCase()` on the ASCII range the expressions use. -/
def jsToLower (s : String) : String :=
  ⟨s.data.map Char.toLower⟩

/-- The AST of tech-stack filter expressions.  The four constructors are
the four `TechStackExpression` implementations of the source
(`TermExpression`, `NotExpression`, `AndExpression`, `OrExpression`). -/
inductive TechStackExpression where
  | TermExpression (term : String)
  | NotExpression (expression : TechStackExpression)
  | AndExpression (left right : TechStackExpression)
  | OrExpression (left right : TechStackExpression)
deriving DecidableEq

/-- `evaluate(techStack)`, dispatched over the four node classes.  A tag
may be `null`/`undefined` (modelled by `none`); the source's optional
chaining `tech?.toLowerCase().trim()` makes such a tag compare unequal to
the (string) normalized term, i.e. it is skipped. -/
def evaluate : TechStackExpression → List (Option String) → Bool
  | .TermExpression term, techStack =>
      techStack.any fun tech =>
        match tech with
        | some t => jsTrim (jsToLower t) == jsTrim (jsToLower term)
        | none => false
  | .NotExpression e, techStack => !(evaluate e techStack)
  | .AndExpression l r, techStack => evaluate l techStack && evaluate r techStack
  | .OrExpression l r, techStack => evaluate l techStack || evaluate r techStack

/-- The `ParseResult` interface of the source. -/
structure ParseResult where
  expression : Option TechStackExpression
  isValid : Bool
  errorMessage : Option String
deriving DecidableEq

/-- The five `Error`s thrown inside the parser, plus the out-of-fuel
marker of the embedding (shown below to be unreachable at the fuel
`parse` supplies). -/
inductive ParseError where
  | unexpectedClosingParen
  | unexpectedEndOfExpression
  | missingClosingParen
  | unexpectedOperator (token : String)
  | trailingTokens
  | outOfFuel
deriving DecidableEq

/-- The exact `message` strings of the thrown `Error`s. -/
def ParseError.message : ParseError → String
  | .unexpectedClosingParen => "Unexpected closing parenthesis"
  | .unexpectedEndOfExpression => "Unexpected end of expression"
  | .missingClosingParen => "Missing closing parenthesis"
  | .unexpectedOperator t => "Unexpected operator: " ++ t
  | .trailingTokens => "Unexpected tokens after parsing"
  | .outOfFuel => "out of fuel"

/-- `tokenize`'s character loop.  The JavaScript loop's locals
(`currentToken`, `inQuotes`) are the extra arguments; its `tokens.push`
calls become list conses.  Note the source only resets `currentToken`
when the trimmed buffer was non-empty, which this mirrors. -/
def tokenizeAux : List Char → String → Bool → List String
  | [], currentToken, _ =>
      if jsTrim currentToken ≠ "" then [jsTrim currentToken] else []
  | c :: rest, currentToken, inQuotes =>
      if c = '"' then
        tokenizeAux rest currentToken (!inQuotes)
      else if inQuotes then
        tokenizeAux rest (currentToken.push c) inQuotes
      else if c = '(' ∨ c = ')' then
        if jsTrim currentToken ≠ "" then
          jsTrim currentToken :: String.singleton c :: tokenizeAux rest "" inQuotes
        else
          String.singleton c :: tokenizeAux rest currentToken inQuotes
      else if c = ' ' ∨ c = '\t' then
        if jsTrim currentToken ≠ "" then
          jsTrim currentToken :: tokenizeAux rest "" inQuotes
        else
          tokenizeAux rest currentToken inQuotes
      else
        tokenizeAux rest (currentToken.push c) inQuotes

/-- `tokenize(expression)`. -/
def tokenize (expression : String) : List String :=
  tokenizeAux expression.data "" false

/-- `isOperator(token, operator)`: case-insensitive keyword test, with
`token` possibly `null` (cursor past the end). -/
def isOperator (token : Option String) (operator : String) : Bool :=
  match token with
  | some t => jsToUpper t == jsToUpper operator
  | none => false

mutual

/-- `parseOrExpression` (fueled).  The remaining token list plays the
role of `this.tokens`/`this.currentIndex`; the `while` loop over `OR` is
`parseOrExpressionLoop`. -/
def parseOrExpression :
    Nat → List String → Except ParseError (TechStackExpression × List String)
  | 0, _ => .error .outOfFuel
  | fuel + 1, tokens =>
    match parseAndExpression fuel tokens with
    | .error e => .error e
    | .ok (left, rest) => parseOrExpressionLoop fuel left rest
termination_by structural fuel => fuel

/-- The `while (isOperator(currentToken, 'OR'))` loop body of
`parseOrExpression`. -/
def parseOrExpressionLoop :
    Nat → TechStackExpression → List String →
      Except ParseError (TechStackExpression × List String)
  | 0, _, _ => .error .outOfFuel
  | fuel + 1, left, tokens =>
    if isOperator tokens.head? "OR" then
      match parseAndExpression fuel tokens.tail with
      | .error e => .error e
      | .ok (right, rest) =>
          parseOrExpressionLoop fuel (.OrExpression left right) rest
    else
      .ok (left, tokens)
termination_by structural fuel => fuel

/-- `parseAndExpression` (fueled). -/
def parseAndExpression :
    Nat → List String → Except ParseError (TechStackExpression × List String)
  | 0, _ => .error .outOfFuel
  | fuel + 1, tokens =>
    match parseNotExpression fuel tokens with
    | .error e => .error e
    | .ok (left, rest) => parseAndExpressionLoop fuel left rest
termination_by structural fuel => fuel

/-- The `while (isOperator(currentToken, 'AND'))` loop body of
`parseAndExpression`. -/
def parseAndExpressionLoop :
    Nat → TechStackExpression → List String →
      Except ParseError (TechStackExpression × List String)
  | 0, _, _ => .error .outOfFuel
  | fuel + 1, left, tokens =>
    if isOperator tokens.head? "AND" then
      match parseNotExpression fuel tokens.tail with
      | .error e => .error e
      | .ok (right, rest) =>
          parseAndExpressionLoop fuel (.AndExpression left right) rest
    else
      .ok (left, tokens)
termination_by structural fuel => fuel

/-- `parseNotExpression` (fueled): chaining `NOT NOT term` is the
recursive call on the tail. -/
def parseNotExpression :
    Nat → List String → Except ParseError (TechStackExpression × List String)
  | 0, _ => .error .outOfFuel
  | fuel + 1, tokens =>
    if isOperator tokens.head? "NOT" then
      match parseNotExpression fuel tokens.tail with
      | .error e => .error e
      | .ok (e, rest) => .ok (.NotExpression e, rest)
    else
      parsePrimaryExpression fuel tokens
termination_by structural fuel => fuel

/-- `parsePrimaryExpression` (fueled): parenthesized group or term, with
the source's four throw sites in the source's order. -/
def parsePrimaryExpression :
    Nat → List String → Except ParseError (TechStackExpression × List String)
  | 0, _ => .error .outOfFuel
  | fuel + 1, tokens =>
    match tokens.head? with
    | none => .error .unexpectedEndOfExpression
    | some t =>
      if t = "(" then
        match parseOrExpression fuel tokens.tail with
        | .error e => .error e
        | .ok (e, rest) =>
          match rest.head? with
          | some s =>
              if s = ")" then .ok (e, rest.tail) else .error .missingClosingParen
          | none => .error .missingClosingParen
      else if t = ")" then
        .error .unexpectedClosingParen
      else if isOperator (some t) "AND" || isOperator (some t) "OR" then
        .error (.unexpectedOperator t)
      else
        .ok (.TermExpression t, tokens.tail)
termination_by structural fuel => fuel

end

/-- The fuel `parse` supplies; shown sufficient in the termination
theorem (every production consumes a token or drops to a strictly lower
precedence level, so four times the token count plus slack bounds the
call depth). -/
def parseFuel (tokens : List String) : Nat :=
  4 * tokens.length + 8

/-- The try-block of `parse`: run the top-level `Or` rule, then the
source's `currentIndex < tokens.length` trailing-token check. -/
def parseTokens (tokens : List String) : Except ParseError TechStackExpression :=
  match parseOrExpression (parseFuel tokens) tokens with
  | .ok (e, rest) => if rest.isEmpty then .ok e else .error .trailingTokens
  | .error e => .error e

/-- `parse(expression)`: empty/whitespace short-circuit, then tokenizer
and parser, with the catch-block's degraded fallback
(`new TermExpression(expression)`) on any error. -/
def parse (expression : String) : ParseResult :=
  if jsTrim expression = "" then
    ⟨none, true, none⟩
  else
    match parseTokens (tokenize expression) with
    | .ok e => ⟨some e, true, none⟩
    | .error err => ⟨some (.TermExpression expression), false, some err.message⟩

/-- No `TermExpression` node of the tree holds operator-keyword text
(case-insensitively). -/
def noOperatorTerms : TechStackExpression → Bool
  | .TermExpression t =>
      !(isOperator (some t) "AND" || isOperator (some t) "OR" ||
        isOperator (some t) "NOT")
  | .NotExpression e => noOperatorTerms e
  | .AndExpression l r => noOperatorTerms l && noOperatorTerms r
  | .OrExpression l r => noOperatorTerms l && noOperatorTerms r

theorem parserConsumes :
    ∀ fuel : Nat,
      (∀ tokens e rest, parsePrimaryExpression fuel tokens = .ok (e, rest) →
        rest.length < tokens.length) ∧
      (∀ tokens e rest, parseNotExpression fuel tokens = .ok (e, rest) →
        rest.length < tokens.length) ∧
      (∀ tokens e rest, parseAndExpression fuel tokens = .ok (e, rest) →
        rest.length < tokens.length) ∧
      (∀ left tokens e rest, parseAndExpressionLoop fuel left tokens = .ok (e, rest) →
        rest.length ≤ tokens.length) ∧
      (∀ tokens e rest, parseOrExpression fuel tokens = .ok (e, rest) →
        rest.length < tokens.length) ∧
      (∀ left tokens e rest, parseOrExpressionLoop fuel left tokens = .ok (e, rest) →
        rest.length ≤ tokens.length) := by
  intro fuel
  induction fuel with
  | zero =>
    refine ⟨?_, ?_, ?_, ?_, ?_, ?_⟩ <;> intros _ _ _ <;>
      first
        | (intro h; simp [parsePrimaryExpression, parseNotExpression, parseAndExpression,
            parseAndExpressionLoop, parseOrExpression, parseOrExpressionLoop] at h)
        | (intro _ h; simp [parseAndExpressionLoop, parseOrExpressionLoop] at h)
  | succ fuel ih =>
    obtain ⟨ihP, ihN, ihA, ihAL, ihO, ihOL⟩ := ih
    refine ⟨?_, ?_, ?_, ?_, ?_, ?_⟩
    · -- parsePrimaryExpression
      intro tokens e rest h
      cases tokens with
      | nil => simp [parsePrimaryExpression] at h
      | cons t tl =>
        by_cases hp : t = "("
        · subst hp
          cases heq : parseOrExpression fuel tl with
          | error err => simp [parsePrimaryExpression, heq] at h
          | ok pr =>
            obtain ⟨e1, rest1⟩ := pr
            have hlen := ihO tl e1 rest1 heq
            cases rest1 with
            | nil => simp [parsePrimaryExpression, heq] at h
            | cons s rest2 =>
              by_cases hs : s = ")"
              · subst hs
                simp [parsePrimaryExpression, heq] at h
                obtain ⟨h1, h2⟩ := h
                subst h2
                simp at hlen ⊢
                omega
              · simp [parsePrimaryExpression, heq, hs] at h
        · by_cases hq : t = ")"
          · subst hq
            simp [parsePrimaryExpression] at h
          · by_cases hb : (isOperator (some t) "AND" || isOperator (some t) "OR") = true
            · simp [parsePrimaryExpression, hp, hq, hb] at h
            · simp [parsePrimaryExpression, hp, hq, hb] at h
              obtain ⟨h1, h2⟩ := h
              subst h2
              simp
    · -- parseNotExpression
      intro tokens e rest h
      by_cases hop : isOperator tokens.head? "NOT" = true
      · cases tokens with
        | nil => simp [isOperator] at hop
        | cons t tl =>
          rw [List.head?_cons] at hop
          cases heq : parseNotExpression fuel tl with
          | error err => simp [parseNotExpression, hop, heq] at h
          | ok pr =>
            obtain ⟨e1, rest1⟩ := pr
            have hlen := ihN tl e1 rest1 heq
            simp [parseNotExpression, hop, heq] at h
            obtain ⟨h1, h2⟩ := h
            subst h2
            simp
            omega
      · have hN : parseNotExpression (fuel + 1) tokens = parsePrimaryExpression fuel tokens := by
          simp [parseNotExpression, hop]
        rw [hN] at h
        exact Nat.lt_of_lt_of_le (ihP tokens e rest h) (le_refl _)
    · -- parseAndExpression
      intro tokens e rest h
      cases heq : parseNotExpression fuel tokens with
      | error err => simp [parseAndExpression, heq] at h
      | ok pr =>
        obtain ⟨e1, rest1⟩ := pr
        have h1 := ihN tokens e1 rest1 heq
        simp [parseAndExpression, heq] at h
        have h2 := ihAL e1 rest1 e rest h
        omega
    · -- parseAndExpressionLoop
      intro left tokens e rest h
      by_cases hop : isOperator tokens.head? "AND" = true
      · cases tokens with
        | nil => simp [isOperator] at hop
        | cons t tl =>
          rw [List.head?_cons] at hop
          cases heq : parseNotExpression fuel tl with
          | error err => simp [parseAndExpressionLoop, hop, heq] at h
          | ok pr =>
            obtain ⟨r1, rest1⟩ := pr
            have h1 := ihN tl r1 rest1 heq
            simp [parseAndExpressionLoop, hop, heq] at h
            have h2 := ihAL (left.AndExpression r1) rest1 e rest h
            simp
            omega
      · simp [parseAndExpressionLoop, hop] at h
        obtain ⟨h1, h2⟩ := h
        subst h2
        exact le_refl _
    · -- parseOrExpression
      intro tokens e rest h
      cases heq : parseAndExpression fuel tokens with
      | error err => simp [parseOrExpression, heq] at h
      | ok pr =>
        obtain ⟨e1, rest1⟩ := pr
        have h1 := ihA tokens e1 rest1 heq
        simp [parseOrExpression, heq] at h
        have h2 := ihOL e1 rest1 e rest h
        omega
    · -- parseOrExpressionLoop
      intro left tokens e rest h
      by_cases hop : isOperator tokens.head? "OR" = true
      · cases tokens with
        | nil => simp [isOperator] at hop
        | cons t tl =>
          rw [List.head?_cons] at hop
          cases heq : parseAndExpression fuel tl with
          | error err => simp [parseOrExpressionLoop, hop, heq] at h
          | ok pr =>
            obtain ⟨r1, rest1⟩ := pr
            have h1 := ihA tl r1 rest1 heq
            simp [parseOrExpressionLoop, hop, heq] at h
            have h2 := ihOL (left.OrExpression r1) rest1 e rest h
            simp
            omega
      · simp [parseOrExpressionLoop, hop] at h
        obtain ⟨h1, h2⟩ := h
        subst h2
        exact le_refl _

theorem parserFuelSufficient :
    ∀ fuel : Nat,
      (∀ tokens, 4 * tokens.length + 1 ≤ fuel →
        parsePrimaryExpression fuel tokens ≠ .error .outOfFuel) ∧
      (∀ tokens, 4 * tokens.length + 2 ≤ fuel →
        parseNotExpression fuel tokens ≠ .error .outOfFuel) ∧
      (∀ tokens, 4 * tokens.length + 3 ≤ fuel →
        parseAndExpression fuel tokens ≠ .error .outOfFuel) ∧
      (∀ left tokens, 4 * tokens.length + 6 ≤ fuel →
        parseAndExpressionLoop fuel left tokens ≠ .error .outOfFuel) ∧
      (∀ tokens, 4 * tokens.length + 4 ≤ fuel →
        parseOrExpression fuel tokens ≠ .error .outOfFuel) ∧
      (∀ left tokens, 4 * tokens.length + 7 ≤ fuel →
        parseOrExpressionLoop fuel left tokens ≠ .error .outOfFuel) := by
  intro fuel
  induction fuel with
  | zero =>
    exact ⟨fun tokens hb => absurd hb (by omega), fun tokens hb => absurd hb (by omega),
      fun tokens hb => absurd hb (by omega), fun left tokens hb => absurd hb (by omega),
      fun tokens hb => absurd hb (by omega), fun left tokens hb => absurd hb (by omega)⟩
  | succ fuel ih =>
    obtain ⟨ihP, ihN, ihA, ihAL, ihO, ihOL⟩ := ih
    refine ⟨?_, ?_, ?_, ?_, ?_, ?_⟩
    · -- parsePrimaryExpression
      intro tokens hb hc
      cases tokens with
      | nil => simp [parsePrimaryExpression] at hc
      | cons t tl =>
        have hf : 4 * tl.length + 4 ≤ fuel := by simp at hb; omega
        by_cases hp : t = "("
        · subst hp
          cases heq : parseOrExpression fuel tl with
          | error err =>
            simp [parsePrimaryExpression, heq] at hc
            exact ihO tl hf (by rw [heq, hc])
          | ok pr =>
            obtain ⟨e1, rest1⟩ := pr
            cases rest1 with
            | nil => simp [parsePrimaryExpression, heq] at hc
            | cons s rest2 =>
              by_cases hs : s = ")"
              · subst hs
                simp [parsePrimaryExpression, heq] at hc
              · simp [parsePrimaryExpression, heq, hs] at hc
        · by_cases hq : t = ")"
          · subst hq
            simp [parsePrimaryExpression] at hc
          · by_cases hop2 : (isOperator (some t) "AND" || isOperator (some t) "OR") = true
            · simp [parsePrimaryExpression, hp, hq, hop2] at hc
            · simp [parsePrimaryExpression, hp, hq, hop2] at hc
    · -- parseNotExpression
      intro tokens hb hc
      by_cases hop : isOperator tokens.head? "NOT" = true
      · cases tokens with
        | nil => simp [isOperator] at hop
        | cons t tl =>
          rw [List.head?_cons] at hop
          have hf : 4 * tl.length + 2 ≤ fuel := by simp at hb; omega
          cases heq : parseNotExpression fuel tl with
          | error err =>
            simp [parseNotExpression, hop, heq] at hc
            exact ihN tl hf (by rw [heq, hc])
          | ok pr =>
            obtain ⟨e1, rest1⟩ := pr
            simp [parseNotExpression, hop, heq] at hc
      · have hN : parseNotExpression (fuel + 1) tokens = parsePrimaryExpression fuel tokens := by
          simp [parseNotExpression, hop]
        rw [hN] at hc
        exact ihP tokens (by omega) hc
    · -- parseAndExpression
      intro tokens hb hc
      cases heq : parseNotExpression fuel tokens with
      | error err =>
        simp [parseAndExpression, heq] at hc
        exact ihN tokens (by omega) (by rw [heq, hc])
      | ok pr =>
        obtain ⟨e1, rest1⟩ := pr
        have hcons := (parserConsumes fuel).2.1 tokens e1 rest1 heq
        have hc2 : parseAndExpressionLoop fuel e1 rest1 = .error .outOfFuel := by
          simpa [parseAndExpression, heq] using hc
        exact ihAL e1 rest1 (by omega) hc2
    · -- parseAndExpressionLoop
      intro left tokens hb hc
      by_cases hop : isOperator tokens.head? "AND" = true
      · cases tokens with
        | nil => simp [isOperator] at hop
        | cons t tl =>
          rw [List.head?_cons] at hop
          have hf : 4 * tl.length + 2 ≤ fuel := by simp at hb; omega
          cases heq : parseNotExpression fuel tl with
          | error err =>
            simp [parseAndExpressionLoop, hop, heq] at hc
            exact ihN tl hf (by rw [heq, hc])
          | ok pr =>
            obtain ⟨r1, rest1⟩ := pr
            have hcons := (parserConsumes fuel).2.1 tl r1 rest1 heq
            have hc2 : parseAndExpressionLoop fuel (left.AndExpression r1) rest1 =
                .error .outOfFuel := by
              simpa [parseAndExpressionLoop, hop, heq] using hc
            exact ihAL (left.AndExpression r1) rest1 (by simp at hb; omega) hc2
      · simp [parseAndExpressionLoop, hop] at hc
    · -- parseOrExpression
      intro tokens hb hc
      cases heq : parseAndExpression fuel tokens with
      | error err =>
        simp [parseOrExpression, heq] at hc
        exact ihA tokens (by omega) (by rw [heq, hc])
      | ok pr =>
        obtain ⟨e1, rest1⟩ := pr
        have hcons := (parserConsumes fuel).2.2.1 tokens e1 rest1 heq
        have hc2 : parseOrExpressionLoop fuel e1 rest1 = .error .outOfFuel := by
          simpa [parseOrExpression, heq] using hc
        exact ihOL e1 rest1 (by omega) hc2
    · -- parseOrExpressionLoop
      intro left tokens hb hc
      by_cases hop : isOperator tokens.head? "OR" = true
      · cases tokens with
        | nil => simp [isOperator] at hop
        | cons t tl =>
          rw [List.head?_cons] at hop
          have hf : 4 * tl.length + 3 ≤ fuel := by simp at hb; omega
          cases heq : parseAndExpression fuel tl with
          | error err =>
            simp [parseOrExpressionLoop, hop, heq] at hc
            exact ihA tl hf (by rw [heq, hc])
          | ok pr =>
            obtain ⟨r1, rest1⟩ := pr
            have hcons := (parserConsumes fuel).2.2.1 tl r1 rest1 heq
            have hc2 : parseOrExpressionLoop fuel (left.OrExpression r1) rest1 =
                .error .outOfFuel := by
              simpa [parseOrExpressionLoop, hop, heq] using hc
            exact ihOL (left.OrExpression r1) rest1 (by simp at hb; omega) hc2
      · simp [parseOrExpressionLoop, hop] at hc

theorem parseTokens_ne_outOfFuel (tokens : List String) :
    parseTokens tokens ≠ Except.error ParseError.outOfFuel := by
  intro hc
  unfold parseTokens at hc
  cases heq : parseOrExpression (parseFuel tokens) tokens with
  | error err =>
    rw [heq] at hc
    simp at hc
    exact (parserFuelSufficient (parseFuel tokens)).2.2.2.2.1 tokens
      (by unfold parseFuel; omega) (by rw [heq, hc])
  | ok pr =>
    obtain ⟨e1, rest1⟩ := pr
    rw [heq] at hc
    by_cases hr : rest1.isEmpty
    · simp [hr] at hc
    · simp [hr] at hc

theorem parserFuelMono :
    ∀ fuel : Nat,
      (∀ tokens fuel2, fuel ≤ fuel2 →
        parsePrimaryExpression fuel tokens ≠ .error .outOfFuel →
        parsePrimaryExpression fuel2 tokens = parsePrimaryExpression fuel tokens) ∧
      (∀ tokens fuel2, fuel ≤ fuel2 →
        parseNotExpression fuel tokens ≠ .error .outOfFuel →
        parseNotExpression fuel2 tokens = parseNotExpression fuel tokens) ∧
      (∀ tokens fuel2, fuel ≤ fuel2 →
        parseAndExpression fuel tokens ≠ .error .outOfFuel →
        parseAndExpression fuel2 tokens = parseAndExpression fuel tokens) ∧
      (∀ left tokens fuel2, fuel ≤ fuel2 →
        parseAndExpressionLoop fuel left tokens ≠ .error .outOfFuel →
        parseAndExpressionLoop fuel2 left tokens = parseAndExpressionLoop fuel left tokens) ∧
      (∀ tokens fuel2, fuel ≤ fuel2 →
        parseOrExpression fuel tokens ≠ .error .outOfFuel →
        parseOrExpression fuel2 tokens = parseOrExpression fuel tokens) ∧
      (∀ left tokens fuel2, fuel ≤ fuel2 →
        parseOrExpressionLoop fuel left tokens ≠ .error .outOfFuel →
        parseOrExpressionLoop fuel2 left tokens = parseOrExpressionLoop fuel left tokens) := by
  intro fuel
  induction fuel with
  | zero =>
    exact ⟨fun tokens _ _ hne => absurd (by simp [parsePrimaryExpression]) hne,
      fun tokens _ _ hne => absurd (by simp [parseNotExpression]) hne,
      fun tokens _ _ hne => absurd (by simp [parseAndExpression]) hne,
      fun left tokens _ _ hne => absurd (by simp [parseAndExpressionLoop]) hne,
      fun tokens _ _ hne => absurd (by simp [parseOrExpression]) hne,
      fun left tokens _ _ hne => absurd (by simp [parseOrExpressionLoop]) hne⟩
  | succ fuel ih =>
    obtain ⟨ihP, ihN, ihA, ihAL, ihO, ihOL⟩ := ih
    refine ⟨?_, ?_, ?_, ?_, ?_, ?_⟩
    · -- parsePrimaryExpression
      intro tokens fuel2 hle hne
      cases fuel2 with
      | zero => omega
      | succ g2 =>
        cases tokens with
        | nil => simp [parsePrimaryExpression]
        | cons t tl =>
          by_cases hp : t = "("
          · subst hp
            cases heq : parseOrExpression fuel tl with
            | error err =>
              have herr : err ≠ ParseError.outOfFuel := by
                intro hh
                subst hh
                exact hne (by simp [parsePrimaryExpression, heq])
              have hmono := ihO tl g2 (by omega)
                (by rw [heq]; exact fun hh => herr (Except.error.inj hh))
              rw [heq] at hmono
              simp [parsePrimaryExpression, heq, hmono]
            | ok pr =>
              obtain ⟨e1, rest1⟩ := pr
              have hmono := ihO tl g2 (by omega) (by rw [heq]; simp)
              rw [heq] at hmono
              simp [parsePrimaryExpression, heq, hmono]
          · by_cases hq : t = ")"
            · subst hq
              simp [parsePrimaryExpression]
            · by_cases hop2 : (isOperator (some t) "AND" || isOperator (some t) "OR") = true
              · simp [parsePrimaryExpression, hp, hq, hop2]
              · simp [parsePrimaryExpression, hp, hq, hop2]
    · -- parseNotExpression
      intro tokens fuel2 hle hne
      cases fuel2 with
      | zero => omega
      | succ g2 =>
        by_cases hop : isOperator tokens.head? "NOT" = true
        · cases tokens with
          | nil => simp [isOperator] at hop
          | cons t tl =>
            rw [List.head?_cons] at hop
            cases heq : parseNotExpression fuel tl with
            | error err =>
              have herr : err ≠ ParseError.outOfFuel := by
                intro hh
                subst hh
                exact hne (by simp [parseNotExpression, hop, heq])
              have hmono := ihN tl g2 (by omega)
                (by rw [heq]; exact fun hh => herr (Except.error.inj hh))
              rw [heq] at hmono
              simp [parseNotExpression, hop, heq, hmono]
            | ok pr =>
              obtain ⟨e1, rest1⟩ := pr
              have hmono := ihN tl g2 (by omega) (by rw [heq]; simp)
              rw [heq] at hmono
              simp [parseNotExpression, hop, heq, hmono]
        · have hr : parseNotExpression (fuel + 1) tokens = parsePrimaryExpression fuel tokens := by
            simp [parseNotExpression, hop]
          rw [hr] at hne ⊢
          have hr2 : parseNotExpression (g2 + 1) tokens = parsePrimaryExpression g2 tokens := by
            simp [parseNotExpression, hop]
          rw [hr2]
          exact ihP tokens g2 (by omega) hne
    · -- parseAndExpression
      intro tokens fuel2 hle hne
      cases fuel2 with
      | zero => omega
      | succ g2 =>
        cases heq : parseNotExpression fuel tokens with
        | error err =>
          have herr : err ≠ ParseError.outOfFuel := by
            intro hh
            subst hh
            exact hne (by simp [parseAndExpression, heq])
          have hmono := ihN tokens g2 (by omega)
            (by rw [heq]; exact fun hh => herr (Except.error.inj hh))
          rw [heq] at hmono
          simp [parseAndExpression, heq, hmono]
        | ok pr =>
          obtain ⟨e1, rest1⟩ := pr
          have hmono := ihN tokens g2 (by omega) (by rw [heq]; simp)
          rw [heq] at hmono
          have hne2 : parseAndExpressionLoop fuel e1 rest1 ≠ .error .outOfFuel := by
            intro hh
            exact hne (by simp [parseAndExpression, heq, hh])
          have hmono2 := ihAL e1 rest1 g2 (by omega) hne2
          simp [parseAndExpression, heq, hmono, hmono2]
    · -- parseAndExpressionLoop
      intro left tokens fuel2 hle hne
      cases fuel2 with
      | zero => omega
      | succ g2 =>
        by_cases hop : isOperator tokens.head? "AND" = true
        · cases tokens with
          | nil => simp [isOperator] at hop
          | cons t tl =>
            rw [List.head?_cons] at hop
            cases heq : parseNotExpression fuel tl with
            | error err =>
              have herr : err ≠ ParseError.outOfFuel := by
                intro hh
                subst hh
                exact hne (by simp [parseAndExpressionLoop, hop, heq])
              have hmono := ihN tl g2 (by omega)
                (by rw [heq]; exact fun hh => herr (Except.error.inj hh))
              rw [heq] at hmono
              simp [parseAndExpressionLoop, hop, heq, hmono]
            | ok pr =>
              obtain ⟨r1, rest1⟩ := pr
              have hmono := ihN tl g2 (by omega) (by rw [heq]; simp)
              rw [heq] at hmono
              have hne2 : parseAndExpressionLoop fuel (left.AndExpression r1) rest1 ≠
                  .error .outOfFuel := by
                intro hh
                exact hne (by simp [parseAndExpressionLoop, hop, heq, hh])
              have hmono2 := ihAL (left.AndExpression r1) rest1 g2 (by omega) hne2
              simp [parseAndExpressionLoop, hop, heq, hmono, hmono2]
        · simp [parseAndExpressionLoop, hop]
    · -- parseOrExpression
      intro tokens fuel2 hle hne
      cases fuel2 with
      | zero => omega
      | succ g2 =>
        cases heq : parseAndExpression fuel tokens with
        | error err =>
          have herr : err ≠ ParseError.outOfFuel := by
            intro hh
            subst hh
            exact hne (by simp [parseOrExpression, heq])
          have hmono := ihA tokens g2 (by omega)
            (by rw [heq]; exact fun hh => herr (Except.error.inj hh))
          rw [heq] at hmono
          simp [parseOrExpression, heq, hmono]
        | ok pr =>
          obtain ⟨e1, rest1⟩ := pr
          have hmono := ihA tokens g2 (by omega) (by rw [heq]; simp)
          rw [heq] at hmono
          have hne2 : parseOrExpressionLoop fuel e1 rest1 ≠ .error .outOfFuel := by
            intro hh
            exact hne (by simp [parseOrExpression, heq, hh])
          have hmono2 := ihOL e1 rest1 g2 (by omega) hne2
          simp [parseOrExpression, heq, hmono, hmono2]
    · -- parseOrExpressionLoop
      intro left tokens fuel2 hle hne
      cases fuel2 with
      | zero => omega
      | succ g2 =>
        by_cases hop : isOperator tokens.head? "OR" = true
        · cases tokens with
          | nil => simp [isOperator] at hop
          | cons t tl =>
            rw [List.head?_cons] at hop
            cases heq : parseAndExpression fuel tl with
            | error err =>
              have herr : err ≠ ParseError.outOfFuel := by
                intro hh
                subst hh
                exact hne (by simp [parseOrExpressionLoop, hop, heq])
              have hmono := ihA tl g2 (by omega)
                (by rw [heq]; exact fun hh => herr (Except.error.inj hh))
              rw [heq] at hmono
              simp [parseOrExpressionLoop, hop, heq, hmono]
            | ok pr =>
              obtain ⟨r1, rest1⟩ := pr
              have hmono := ihA tl g2 (by omega) (by rw [heq]; simp)
              rw [heq] at hmono
              have hne2 : parseOrExpressionLoop fuel (left.OrExpression r1) rest1 ≠
                  .error .outOfFuel := by
                intro hh
                exact hne (by simp [parseOrExpressionLoop, hop, heq, hh])
              have hmono2 := ihOL (left.OrExpression r1) rest1 g2 (by omega) hne2
              simp [parseOrExpressionLoop, hop, heq, hmono, hmono2]
        · simp [parseOrExpressionLoop, hop]

theorem parserNoOperatorTerms :
    ∀ fuel : Nat,
      (∀ tokens e rest, isOperator tokens.head? "NOT" = false →
        parsePrimaryExpression fuel tokens = .ok (e, rest) → noOperatorTerms e = true) ∧
      (∀ tokens e rest, parseNotExpression fuel tokens = .ok (e, rest) →
        noOperatorTerms e = true) ∧
      (∀ tokens e rest, parseAndExpression fuel tokens = .ok (e, rest) →
        noOperatorTerms e = true) ∧
      (∀ left tokens e rest, noOperatorTerms left = true →
        parseAndExpressionLoop fuel left tokens = .ok (e, rest) → noOperatorTerms e = true) ∧
      (∀ tokens e rest, parseOrExpression fuel tokens = .ok (e, rest) →
        noOperatorTerms e = true) ∧
      (∀ left tokens e rest, noOperatorTerms left = true →
        parseOrExpressionLoop fuel left tokens = .ok (e, rest) → noOperatorTerms e = true) := by
  intro fuel
  induction fuel with
  | zero =>
    refine ⟨fun tokens e rest _ h => ?_, fun tokens e rest h => ?_,
      fun tokens e rest h => ?_, fun left tokens e rest _ h => ?_,
      fun tokens e rest h => ?_, fun left tokens e rest _ h => ?_⟩ <;>
      simp [parsePrimaryExpression, parseNotExpression, parseAndExpression,
        parseAndExpressionLoop, parseOrExpression, parseOrExpressionLoop] at h
  | succ fuel ih =>
    obtain ⟨ihP, ihN, ihA, ihAL, ihO, ihOL⟩ := ih
    refine ⟨?_, ?_, ?_, ?_, ?_, ?_⟩
    · -- parsePrimaryExpression
      intro tokens e rest hnot h
      cases tokens with
      | nil => simp [parsePrimaryExpression] at h
      | cons t tl =>
        rw [List.head?_cons] at hnot
        by_cases hp : t = "("
        · subst hp
          cases heq : parseOrExpression fuel tl with
          | error err => simp [parsePrimaryExpression, heq] at h
          | ok pr =>
            obtain ⟨e1, rest1⟩ := pr
            have he1 := ihO tl e1 rest1 heq
            cases rest1 with
            | nil => simp [parsePrimaryExpression, heq] at h
            | cons s rest2 =>
              by_cases hs : s = ")"
              · subst hs
                simp [parsePrimaryExpression, heq] at h
                obtain ⟨h1, h2⟩ := h
                subst h1
                exact he1
              · simp [parsePrimaryExpression, heq, hs] at h
        · by_cases hq : t = ")"
          · subst hq
            simp [parsePrimaryExpression] at h
          · by_cases hb : (isOperator (some t) "AND" || isOperator (some t) "OR") = true
            · simp [parsePrimaryExpression, hp, hq, hb] at h
            · simp [parsePrimaryExpression, hp, hq, hb] at h
              obtain ⟨h1, h2⟩ := h
              subst h1
              simp only [Bool.or_eq_true] at hb
              push_neg at hb
              simp [noOperatorTerms, Bool.or_eq_true, hnot,
                Bool.eq_false_iff.mpr hb.1, Bool.eq_false_iff.mpr hb.2]
    · -- parseNotExpression
      intro tokens e rest h
      by_cases hop : isOperator tokens.head? "NOT" = true
      · cases tokens with
        | nil => simp [isOperator] at hop
        | cons t tl =>
          rw [List.head?_cons] at hop
          cases heq : parseNotExpression fuel tl with
          | error err => simp [parseNotExpression, hop, heq] at h
          | ok pr =>
            obtain ⟨e1, rest1⟩ := pr
            have he1 := ihN tl e1 rest1 heq
            simp [parseNotExpression, hop, heq] at h
            obtain ⟨h1, h2⟩ := h
            subst h1
            simpa [noOperatorTerms] using he1
      · have hr : parseNotExpression (fuel + 1) tokens = parsePrimaryExpression fuel tokens := by
          simp [parseNotExpression, hop]
        rw [hr] at h
        exact ihP tokens e rest (Bool.not_eq_true _ ▸ Bool.of_not_eq_true hop) h
    · -- parseAndExpression
      intro tokens e rest h
      cases heq : parseNotExpression fuel tokens with
      | error err => simp [parseAndExpression, heq] at h
      | ok pr =>
        obtain ⟨e1, rest1⟩ := pr
        have he1 := ihN tokens e1 rest1 heq
        simp [parseAndExpression, heq] at h
        exact ihAL e1 rest1 e rest he1 h
    · -- parseAndExpressionLoop
      intro left tokens e rest hleft h
      by_cases hop : isOperator tokens.head? "AND" = true
      · cases tokens with
        | nil => simp [isOperator] at hop
        | cons t tl =>
          rw [List.head?_cons] at hop
          cases heq : parseNotExpression fuel tl with
          | error err => simp [parseAndExpressionLoop, hop, heq] at h
          | ok pr =>
            obtain ⟨r1, rest1⟩ := pr
            have hr1 := ihN tl r1 rest1 heq
            simp [parseAndExpressionLoop, hop, heq] at h
            exact ihAL (left.AndExpression r1) rest1 e rest
              (by simp [noOperatorTerms, hleft, hr1]) h
      · simp [parseAndExpressionLoop, hop] at h
        obtain ⟨h1, h2⟩ := h
        subst h1
        exact hleft
    · -- parseOrExpression
      intro tokens e rest h
      cases heq : parseAndExpression fuel tokens with
      | error err => simp [parseOrExpression, heq] at h
      | ok pr =>
        obtain ⟨e1, rest1⟩ := pr
        have he1 := ihA tokens e1 rest1 heq
        simp [parseOrExpression, heq] at h
        exact ihOL e1 rest1 e rest he1 h
    · -- parseOrExpressionLoop
      intro left tokens e rest hleft h
      by_cases hop : isOperator tokens.head? "OR" = true
      · cases tokens with
        | nil => simp [isOperator] at hop
        | cons t tl =>
          rw [List.head?_cons] at hop
          cases heq : parseAndExpression fuel tl with
          | error err => simp [parseOrExpressionLoop, hop, heq] at h
          | ok pr =>
            obtain ⟨r1, rest1⟩ := pr
            have hr1 := ihA tl r1 rest1 heq
            simp [parseOrExpressionLoop, hop, heq] at h
            exact ihOL (left.OrExpression r1) rest1 e rest
              (by simp [noOperatorTerms, hleft, hr1]) h
      · simp [parseOrExpressionLoop, hop] at h
        obtain ⟨h1, h2⟩ := h
        subst h1
        exact hleft

theorem parseNot_step_prim (fuel : Nat) (tokens : List String)
    (hop : isOperator tokens.head? "NOT" = false) :
    parseNotExpression (fuel + 1) tokens = parsePrimaryExpression fuel tokens := by
  simp [parseNotExpression, hop]

theorem isOperator_or_not_and (x : Option String)
    (h : isOperator x "OR" = true) : isOperator x "AND" = false := by
  cases x with
  | none => simp [isOperator] at h
  | some t =>
    simp [isOperator] at h ⊢
    rw [h]
    decide

/-- Modelled from the spec: the grammar of §4.2,
`Or := And ('OR' And)*`, `And := Not ('AND' Not)*`,
`Not := 'NOT' Not | Primary`, `Primary := '(' Or ')' | TERM`,
as a derivability predicate on token sequences.  Levels 0–3 are
Primary/Not/And/Or; levels 5 and 4 are the starred `('AND' Not)*` and
`('OR' And)*` tails.  A TERM is any token other than the parentheses and
the case-insensitive keywords. -/
inductive Deriv : Nat → List String → Prop where
  | term (t : String) :
      t ≠ "(" → t ≠ ")" →
      isOperator (some t) "AND" = false → isOperator (some t) "OR" = false →
      isOperator (some t) "NOT" = false → Deriv 0 [t]
  | paren (w : List String) : Deriv 3 w → Deriv 0 ("(" :: w ++ [")"])
  | notPrim (w : List String) : Deriv 0 w → Deriv 1 w
  | notNot (t : String) (w : List String) :
      isOperator (some t) "NOT" = true → Deriv 1 w → Deriv 1 (t :: w)
  | andSeq (w tail : List String) : Deriv 1 w → Deriv 5 tail → Deriv 2 (w ++ tail)
  | andStarNil : Deriv 5 []
  | andStarCons (t : String) (w tail : List String) :
      isOperator (some t) "AND" = true → Deriv 1 w → Deriv 5 tail →
      Deriv 5 (t :: w ++ tail)
  | orSeq (w tail : List String) : Deriv 2 w → Deriv 4 tail → Deriv 3 (w ++ tail)
  | orStarNil : Deriv 4 []
  | orStarCons (t : String) (w tail : List String) :
      isOperator (some t) "OR" = true → Deriv 2 w → Deriv 4 tail →
      Deriv 4 (t :: w ++ tail)

/-- A word of the spec grammar means: for every continuation `rest`
whose first token cannot extend the pending loops, the corresponding
parser function (given enough fuel) consumes exactly the word. -/
def CompletenessStmt : Nat → List String → Prop
  | 0, w => ∀ rest, ∃ N e, ∀ fuel, N ≤ fuel →
      parsePrimaryExpression fuel (w ++ rest) = .ok (e, rest)
  | 1, w => ∀ rest, ∃ N e, ∀ fuel, N ≤ fuel →
      parseNotExpression fuel (w ++ rest) = .ok (e, rest)
  | 2, w => ∀ rest, isOperator rest.head? "AND" = false →
      ∃ N e, ∀ fuel, N ≤ fuel →
      parseAndExpression fuel (w ++ rest) = .ok (e, rest)
  | 3, w => ∀ rest, isOperator rest.head? "OR" = false →
      isOperator rest.head? "AND" = false →
      ∃ N e, ∀ fuel, N ≤ fuel →
      parseOrExpression fuel (w ++ rest) = .ok (e, rest)
  | 4, w => ∀ left rest, isOperator rest.head? "OR" = false →
      isOperator rest.head? "AND" = false →
      ∃ N e, ∀ fuel, N ≤ fuel →
      parseOrExpressionLoop fuel left (w ++ rest) = .ok (e, rest)
  | 5, w => ∀ left rest, isOperator rest.head? "AND" = false →
      ∃ N e, ∀ fuel, N ≤ fuel →
      parseAndExpressionLoop fuel left (w ++ rest) = .ok (e, rest)
  | _, _ => True

theorem derivComplete :
    ∀ (lvl : Nat) (w : List String), Deriv lvl w → CompletenessStmt lvl w := by
  intro lvl w h
  induction h with
  | term t h1 h2 h3 h4 h5 =>
    intro rest
    refine ⟨1, .TermExpression t, fun fuel hf => ?_⟩
    cases fuel with
    | zero => omega
    | succ g =>
      simp [parsePrimaryExpression, h1, h2, h3, h4]
  | paren w hw ih =>
    intro rest
    obtain ⟨N3, e3, h3⟩ := ih (")" :: rest)
      (by rw [List.head?_cons]; decide) (by rw [List.head?_cons]; decide)
    refine ⟨N3 + 1, e3, fun fuel hf => ?_⟩
    cases fuel with
    | zero => omega
    | succ g =>
      have hg := h3 g (by omega)
      simp only [List.cons_append, List.append_assoc, List.singleton_append]
      simp [parsePrimaryExpression, hg]
  | notPrim w hw ih =>
    intro rest
    obtain ⟨N0, e0, h0⟩ := ih rest
    refine ⟨N0 + 1, e0, fun fuel hf => ?_⟩
    cases fuel with
    | zero => omega
    | succ g =>
      have hg := h0 g (by omega)
      have hop : isOperator (w ++ rest).head? "NOT" = false := by
        cases hw with
        | term t h1 h2 h3 h4 h5 => simpa using h5
        | paren w2 hw2 =>
          simp only [List.cons_append, List.head?_cons]
          decide
      rw [parseNot_step_prim g (w ++ rest) hop]
      exact hg
  | notNot t w ht hw ih =>
    intro rest
    obtain ⟨N1, e1, h1⟩ := ih rest
    refine ⟨N1 + 1, .NotExpression e1, fun fuel hf => ?_⟩
    cases fuel with
    | zero => omega
    | succ g =>
      have hg := h1 g (by omega)
      simp only [List.cons_append]
      simp [parseNotExpression, ht, hg]
  | andSeq w tail hw htail ih1 ih5 =>
    intro rest hrest
    obtain ⟨N1, e1, h1⟩ := ih1 (tail ++ rest)
    obtain ⟨N5, e5, h5⟩ := ih5 e1 rest hrest
    refine ⟨N1 + N5 + 1, e5, fun fuel hf => ?_⟩
    cases fuel with
    | zero => omega
    | succ g =>
      have hg1 := h1 g (by omega)
      have hg5 := h5 g (by omega)
      simp only [List.append_assoc]
      simp [parseAndExpression, hg1, hg5]
  | andStarNil =>
    intro left rest hrest
    refine ⟨1, left, fun fuel hf => ?_⟩
    cases fuel with
    | zero => omega
    | succ g =>
      simp [parseAndExpressionLoop, hrest]
  | andStarCons t w tail ht hw htail ih1 ih5 =>
    intro left rest hrest
    obtain ⟨N1, e1, h1⟩ := ih1 (tail ++ rest)
    obtain ⟨N5, e5, h5⟩ := ih5 (left.AndExpression e1) rest hrest
    refine ⟨N1 + N5 + 1, e5, fun fuel hf => ?_⟩
    cases fuel with
    | zero => omega
    | succ g =>
      have hg1 := h1 g (by omega)
      have hg5 := h5 g (by omega)
      simp only [List.cons_append, List.append_assoc]
      simp [parseAndExpressionLoop, ht, hg1, hg5]
  | orSeq w tail hw htail ih2 ih4 =>
    intro rest hor hand
    have hand2 : isOperator (tail ++ rest).head? "AND" = false := by
      cases htail with
      | orStarNil => simpa using hand
      | orStarCons t2 w2 tail2 ht2 hw2 htail2 =>
        simp only [List.cons_append, List.head?_cons]
        exact isOperator_or_not_and _ ht2
    obtain ⟨N2, e2, h2⟩ := ih2 (tail ++ rest) hand2
    obtain ⟨N4, e4, h4⟩ := ih4 e2 rest hor hand
    refine ⟨N2 + N4 + 1, e4, fun fuel hf => ?_⟩
    cases fuel with
    | zero => omega
    | succ g =>
      have hg2 := h2 g (by omega)
      have hg4 := h4 g (by omega)
      simp only [List.append_assoc]
      simp [parseOrExpression, hg2, hg4]
  | orStarNil =>
    intro left rest hor hand
    refine ⟨1, left, fun fuel hf => ?_⟩
    cases fuel with
    | zero => omega
    | succ g =>
      simp [parseOrExpressionLoop, hor]
  | orStarCons t w tail ht hw htail ih2 ih4 =>
    intro left rest hor hand
    have hand2 : isOperator (tail ++ rest).head? "AND" = false := by
      cases htail with
      | orStarNil => simpa using hand
      | orStarCons t2 w2 tail2 ht2 hw2 htail2 =>
        simp only [List.cons_append, List.head?_cons]
        exact isOperator_or_not_and _ ht2
    obtain ⟨N2, e2, h2⟩ := ih2 (tail ++ rest) hand2
    obtain ⟨N4, e4, h4⟩ := ih4 (left.OrExpression e2) rest hor hand
    refine ⟨N2 + N4 + 1, e4, fun fuel hf => ?_⟩
    cases fuel with
    | zero => omega
    | succ g =>
      have hg2 := h2 g (by omega)
      have hg4 := h4 g (by omega)
      simp only [List.cons_append, List.append_assoc]
      simp [parseOrExpressionLoop, ht, hg2, hg4]
theorem jsTrim_data_subset (s : String) (c : Char) (h : c ∈ (jsTrim s).data) :
    c ∈ s.data := by
  have h1 : c ∈ (s.data.dropWhile isJsWhitespace).reverse.dropWhile isJsWhitespace := by
    simpa [jsTrim] using h
  have h2 := (List.dropWhile_sublist isJsWhitespace).subset h1
  rw [List.mem_reverse] at h2
  exact (List.dropWhile_sublist isJsWhitespace).subset h2

theorem tokenizeAux_no_quote :
    ∀ (chars : List Char) (buf : String) (q : Bool) (t : String),
      ('"' ∈ buf.data → False) → t ∈ tokenizeAux chars buf q → '"' ∈ t.data → False := by
  intro chars
  induction chars with
  | nil =>
    intro buf q t hbuf ht hc
    by_cases he : jsTrim buf ≠ ""
    · simp [tokenizeAux, he] at ht
      subst ht
      exact hbuf (jsTrim_data_subset buf _ hc)
    · simp [tokenizeAux, he] at ht
  | cons c cs ih =>
    intro buf q t hbuf ht hc
    by_cases h1 : c = '"'
    · subst h1
      simp [tokenizeAux] at ht
      exact ih buf (!q) t hbuf ht hc
    · cases q with
      | true =>
        simp [tokenizeAux, h1] at ht
        refine ih (buf.push c) true t ?_ ht hc
        intro hm
        simp [String.push] at hm
        rcases hm with hm | hm
        · exact hbuf hm
        · exact h1 hm.symm
      | false =>
        by_cases h2 : c = '(' ∨ c = ')'
        · by_cases he : jsTrim buf ≠ ""
          · simp [tokenizeAux, h1, h2, he] at ht
            rcases ht with ht | ht | ht
            · subst ht
              exact hbuf (jsTrim_data_subset buf _ hc)
            · subst ht
              simp [String.singleton, String.push] at hc
              rcases h2 with h2 | h2 <;> subst h2 <;> simp at hc
            · refine ih "" false t ?_ ht hc
              intro hm
              simp at hm
          · simp [tokenizeAux, h1, h2, he] at ht
            rcases ht with ht | ht
            · subst ht
              simp [String.singleton, String.push] at hc
              rcases h2 with h2 | h2 <;> subst h2 <;> simp at hc
            · exact ih buf false t hbuf ht hc
        · by_cases h3 : c = ' ' ∨ c = '\t'
          · by_cases he : jsTrim buf ≠ ""
            · simp [tokenizeAux, h1, h2, h3, he] at ht
              rcases ht with ht | ht
              · subst ht
                exact hbuf (jsTrim_data_subset buf _ hc)
              · refine ih "" false t ?_ ht hc
                intro hm
                simp at hm
            · simp [tokenizeAux, h1, h2, h3, he] at ht
              exact ih buf false t hbuf ht hc
          · simp [tokenizeAux, h1, h2, h3] at ht
            refine ih (buf.push c) false t ?_ ht hc
            intro hm
            simp [String.push] at hm
            rcases hm with hm | hm
            · exact hbuf hm
            · exact h1 hm.symm
/-- C1: for every input string, `parse` returns a `ParseResult` without
raising past its boundary (it is a total function of the embedding);
whenever parsing fails (`isValid = false`), the result carries the
triggering error's message in a present `errorMessage`, and the
expression is a `TermExpression` wrapping the entire original raw
string, which evaluates to `true` against a tag list holding exactly
that raw string. -/
theorem claim_C1_parse_failure_fallback :
    ∀ s : String, (parse s).isValid = false →
      (∃ err, parseTokens (tokenize s) = Except.error err ∧
        (parse s).errorMessage = some (ParseError.message err)) ∧
      (parse s).expression = some (.TermExpression s) ∧
      evaluate (.TermExpression s) [some s] = true := by
  intro s h
  by_cases he : jsTrim s = ""
  · simp [parse, he] at h
  · cases hp : parseTokens (tokenize s) with
    | ok e => simp [parse, he, hp] at h
    | error err =>
      refine ⟨⟨err, rfl, ?_⟩, ?_, ?_⟩ <;> simp [parse, he, hp, evaluate]

/-- Witness for C1 at the malformed input `"Python AND"`. -/
theorem claim_C1_witness :
    (parse "Python AND").expression = some (.TermExpression "Python AND") ∧
      evaluate (.TermExpression "Python AND") [some "Python AND"] = true := by
  have h := claim_C1_parse_failure_fallback "Python AND" (by decide)
  exact ⟨h.2.1, h.2.2⟩

/-- C2: operator precedence is OR < AND < NOT with parentheses on top:
`"Java OR Python AND Django"` parses as
`Or(Term Java, And(Term Python, Term Django))`, which evaluates to true
against `["Python", "Django"]`, and `NOT` chains, so `"NOT NOT X"`
parses as `Not(Not(Term X))`. -/
theorem claim_C2_precedence :
    parse "Java OR Python AND Django" =
      ⟨some (.OrExpression (.TermExpression "Java")
        (.AndExpression (.TermExpression "Python") (.TermExpression "Django"))),
        true, none⟩ ∧
    evaluate (.OrExpression (.TermExpression "Java")
        (.AndExpression (.TermExpression "Python") (.TermExpression "Django")))
      [some "Python", some "Django"] = true ∧
    parse "NOT NOT X" =
      ⟨some (.NotExpression (.NotExpression (.TermExpression "X"))), true, none⟩ :=
  ⟨by decide, by decide, by decide⟩

/-- C3: a `TermExpression` evaluates to true iff some non-null tag
normalizes (lower-case then trim) to exactly the normalized term text —
never a substring or prefix match; null tags are skipped and the empty
tag list makes every term false. -/
theorem claim_C3_term_exact_match :
    (∀ term tags, evaluate (.TermExpression term) tags = true ↔
      ∃ t, some t ∈ tags ∧ jsTrim (jsToLower t) = jsTrim (jsToLower term)) ∧
    evaluate (.TermExpression "Py") [some "Python"] = false ∧
    evaluate (.TermExpression "Post") [some "PostgreSQL"] = false ∧
    (∀ term, evaluate (.TermExpression term) [] = false) ∧
    evaluate (.TermExpression "python") [none, some "Python"] = true := by
  refine ⟨?_, by decide, by decide, fun term => rfl, by decide⟩
  intro term tags
  simp only [evaluate, List.any_eq_true]
  constructor
  · rintro ⟨tag, htag, hmatch⟩
    cases tag with
    | none => simp at hmatch
    | some t => exact ⟨t, htag, by simpa using hmatch⟩
  · rintro ⟨t, ht, heq⟩
    exact ⟨some t, ht, by simpa using heq⟩

/-- Witness for C3: the exact-match characterization applied at the
tag list `["Python"]` and the term `"python"`. -/
theorem claim_C3_witness :
    ∃ t, some t ∈ [some "Python"] ∧
      jsTrim (jsToLower t) = jsTrim (jsToLower "python") :=
  (claim_C3_term_exact_match.1 "python" [some "Python"]).mp (by decide)

/-- C4: every parse failure is one of the five listed syntax-error
conditions, and the `errorMessage` identifies the triggering condition
with the corresponding message. -/
theorem claim_C4_error_conditions :
    (∀ s, (parse s).isValid = false →
      ∃ err, (parse s).errorMessage = some (ParseError.message err) ∧
        (err = ParseError.unexpectedClosingParen ∨
         err = ParseError.unexpectedEndOfExpression ∨
         err = ParseError.missingClosingParen ∨
         (∃ t, err = ParseError.unexpectedOperator t) ∨
         err = ParseError.trailingTokens)) ∧
    (parse ")").errorMessage = some "Unexpected closing parenthesis" ∧
    (parse "Python AND").errorMessage = some "Unexpected end of expression" ∧
    (parse "(Python").errorMessage = some "Missing closing parenthesis" ∧
    (parse "AND").errorMessage = some "Unexpected operator: AND" ∧
    (parse "Python Django").errorMessage = some "Unexpected tokens after parsing" := by
  refine ⟨?_, by decide, by decide, by decide, by decide, by decide⟩
  intro s h
  by_cases he : jsTrim s = ""
  · simp [parse, he] at h
  · cases hp : parseTokens (tokenize s) with
    | ok e => simp [parse, he, hp] at h
    | error err =>
      have hne : err ≠ ParseError.outOfFuel := by
        intro hh
        subst hh
        exact parseTokens_ne_outOfFuel (tokenize s) hp
      refine ⟨err, by simp [parse, he, hp], ?_⟩
      cases err with
      | unexpectedClosingParen => exact Or.inl rfl
      | unexpectedEndOfExpression => exact Or.inr (Or.inl rfl)
      | missingClosingParen => exact Or.inr (Or.inr (Or.inl rfl))
      | unexpectedOperator t => exact Or.inr (Or.inr (Or.inr (Or.inl ⟨t, rfl⟩)))
      | trailingTokens => exact Or.inr (Or.inr (Or.inr (Or.inr rfl)))
      | outOfFuel => exact absurd rfl hne

/-- Witness for C4 at the input `")"`. -/
theorem claim_C4_witness :
    ∃ err, (parse ")").errorMessage = some (ParseError.message err) ∧
      (err = ParseError.unexpectedClosingParen ∨
       err = ParseError.unexpectedEndOfExpression ∨
       err = ParseError.missingClosingParen ∨
       (∃ t, err = ParseError.unexpectedOperator t) ∨
       err = ParseError.trailingTokens) :=
  claim_C4_error_conditions.1 ")" (by decide)
/-- C5: the tokenizer drops every quote character from its output;
inside quotes every non-quote character (whitespace and parentheses
included) is captured literally into the current token, so
`"Machine Learning"` survives as one token; outside quotes a
parenthesis first flushes a pending non-empty trimmed token and is then
emitted as its own token; an unterminated quote is tolerated silently,
the rest of the input being treated as quoted. -/
theorem claim_C5_tokenizer_quote_handling :
    (∀ s t, t ∈ tokenize s → '"' ∈ t.data → False) ∧
    (∀ (c : Char) (cs : List Char) (buf : String), c ≠ '"' →
      tokenizeAux (c :: cs) buf true = tokenizeAux cs (buf.push c) true) ∧
    (∀ (c : Char) (cs : List Char) (buf : String),
      (c = '(' ∨ c = ')') → jsTrim buf ≠ "" →
      tokenizeAux (c :: cs) buf false =
        jsTrim buf :: String.singleton c :: tokenizeAux cs "" false) ∧
    tokenize "\"Machine Learning\"" = ["Machine Learning"] ∧
    tokenize "\"Machine Learning" = ["Machine Learning"] := by
  refine ⟨?_, ?_, ?_, by decide, by decide⟩
  · intro s t ht hc
    exact tokenizeAux_no_quote s.data "" false t (by simp) ht hc
  · intro c cs buf hc
    simp [tokenizeAux, hc]
  · intro c cs buf hpar htrim
    rcases hpar with hpar | hpar <;> subst hpar <;> simp [tokenizeAux, htrim]

/-- Witness for C5: no token of `tokenize "\"a\""` contains a quote,
and the in-quote and parenthesis-flush equations at concrete inputs. -/
theorem claim_C5_witness :
    ('"' ∈ "a".data → False) ∧
    tokenizeAux ['b'] "x" true = tokenizeAux [] ("x".push 'b') true ∧
    tokenizeAux ['('] "x" false =
      jsTrim "x" :: String.singleton '(' :: tokenizeAux [] "" false :=
  ⟨claim_C5_tokenizer_quote_handling.1 "\"a\"" "a" (by decide),
    claim_C5_tokenizer_quote_handling.2.1 'b' [] "x" (by decide),
    claim_C5_tokenizer_quote_handling.2.2.1 '(' [] "x" (Or.inl rfl) (by decide)⟩

/-- C6: empty or all-whitespace input short-circuits to the result with
no expression node, `isValid = true` and no error message. -/
theorem claim_C6_empty_input (s : String) (h : jsTrim s = "") :
    parse s = ⟨none, true, none⟩ := by
  simp [parse, h]

/-- Witness for C6 at `"   "`. -/
theorem claim_C6_witness :
    jsTrim "   " = "" ∧ parse "   " = ⟨none, true, none⟩ :=
  ⟨by decide, claim_C6_empty_input "   " (by decide)⟩

/-- C7: `parse` terminates on every input: the fuel supplied by
`parseTokens` is never exhausted (the out-of-fuel marker of the
embedding is unreachable), because every successful parser production
consumes at least one token — the remaining token range shrinks
strictly through `parseOrExpression` and `parseNotExpression`. -/
theorem claim_C7_parser_terminates :
    (∀ tokens : List String, parseTokens tokens ≠ Except.error ParseError.outOfFuel) ∧
    (∀ fuel tokens e rest, parseOrExpression fuel tokens = .ok (e, rest) →
      rest.length < tokens.length) ∧
    (∀ fuel tokens e rest, parseNotExpression fuel tokens = .ok (e, rest) →
      rest.length < tokens.length) :=
  ⟨parseTokens_ne_outOfFuel,
    fun fuel => (parserConsumes fuel).2.2.2.2.1,
    fun fuel => (parserConsumes fuel).2.1⟩

/-- Witness for C7 on the token list `["Python"]`. -/
theorem claim_C7_witness :
    parseTokens ["Python"] ≠ Except.error ParseError.outOfFuel ∧
      List.length ([] : List String) < List.length ["Python"] :=
  ⟨claim_C7_parser_terminates.1 ["Python"],
    claim_C7_parser_terminates.2.1 8 ["Python"] (.TermExpression "Python") []
      rfl⟩

/-- C8: `parse` is deterministic (it is a function: equal inputs give
equal results), and every input whose token sequence is well-formed for
the spec grammar (`Deriv 3`) parses with `isValid = true`. -/
theorem claim_C8_deterministic_and_wellformed_valid :
    ∀ s : String, parse s = parse s ∧
      (Deriv 3 (tokenize s) → (parse s).isValid = true) := by
  intro s
  refine ⟨rfl, fun hd => ?_⟩
  by_cases he : jsTrim s = ""
  · simp [parse, he]
  · have hc := derivComplete 3 (tokenize s) hd
    obtain ⟨N, e, hN⟩ := hc [] rfl rfl
    rw [List.append_nil] at hN
    have hfuel0 : parseOrExpression (parseFuel (tokenize s)) (tokenize s) ≠
        Except.error ParseError.outOfFuel :=
      (parserFuelSufficient (parseFuel (tokenize s))).2.2.2.2.1 (tokenize s)
        (by unfold parseFuel; omega)
    have hmax1 := (parserFuelMono (parseFuel (tokenize s))).2.2.2.2.1 (tokenize s)
      (max N (parseFuel (tokenize s))) (le_max_right _ _) hfuel0
    have hmax2 := hN (max N (parseFuel (tokenize s))) (le_max_left _ _)
    have hok : parseOrExpression (parseFuel (tokenize s)) (tokenize s) =
        Except.ok (e, []) := by
      rw [← hmax1, hmax2]
    simp [parse, he, parseTokens, hok]

/-- Witness for C8 at the well-formed input `"Python"`. -/
theorem claim_C8_witness : (parse "Python").isValid = true := by
  have hd : Deriv 3 (tokenize "Python") := by
    have ht : tokenize "Python" = ["Python"] := by decide
    rw [ht]
    exact Deriv.orSeq ["Python"] []
      (Deriv.andSeq ["Python"] []
        (Deriv.notPrim ["Python"]
          (Deriv.term "Python" (by decide) (by decide) (by decide) (by decide)
            (by decide)))
        Deriv.andStarNil)
      Deriv.orStarNil
  exact (claim_C8_deterministic_and_wellformed_valid "Python").2 hd

/-- C9: quoting does not escape operator keywords — quotes are stripped
before case-insensitive keyword recognition, so `parse "\"NOT\""`
(quotes in the input) is invalid; and every expression tree returned by
a valid parse contains no term node whose text is AND, OR or NOT
case-insensitively. -/
theorem claim_C9_quotes_no_escape :
    (parse "\"NOT\"").isValid = false ∧
    (∀ s e, (parse s).isValid = true → (parse s).expression = some e →
      noOperatorTerms e = true) := by
  refine ⟨by decide, ?_⟩
  intro s e hv he
  by_cases hemp : jsTrim s = ""
  · simp [parse, hemp] at he
  · cases hp : parseTokens (tokenize s) with
    | error err => simp [parse, hemp, hp] at hv
    | ok e2 =>
      have he2 : e2 = e := by
        simp [parse, hemp, hp] at he
        exact he
      subst he2
      unfold parseTokens at hp
      cases ho : parseOrExpression (parseFuel (tokenize s)) (tokenize s) with
      | error err =>
        rw [ho] at hp
        simp at hp
      | ok pr =>
        obtain ⟨e3, rest3⟩ := pr
        rw [ho] at hp
        by_cases hr : rest3.isEmpty
        · simp [hr] at hp
          subst hp
          exact (parserNoOperatorTerms (parseFuel (tokenize s))).2.2.2.2.1
            (tokenize s) _ rest3 ho
        · simp [hr] at hp

/-- Witness for C9 at the valid input `"Python"`. -/
theorem claim_C9_witness : noOperatorTerms (.TermExpression "Python") = true :=
  claim_C9_quotes_no_escape.2 "Python" (.TermExpression "Python")
    (by decide) (by decide)

/-- C10: outside quotes, among whitespace only space and tab flush the
token buffer; any other character — a newline in particular — is
appended to the current token like an ordinary character, so
`"Python\nDjango"` tokenizes as a single token containing the
newline. -/
theorem claim_C10_whitespace_flush :
    (∀ (c : Char) (cs : List Char) (buf : String),
      c ≠ '"' → c ≠ '(' → c ≠ ')' → c ≠ ' ' → c ≠ '\t' →
      tokenizeAux (c :: cs) buf false = tokenizeAux cs (buf.push c) false) ∧
    tokenize "Python\nDjango" = ["Python\nDjango"] := by
  refine ⟨?_, by decide⟩
  intro c cs buf h1 h2 h3 h4 h5
  simp [tokenizeAux, h1, h2, h3, h4, h5]

/-- Witness for C10: a newline is appended to the buffer, not flushed. -/
theorem claim_C10_witness :
    tokenizeAux ['\n'] "Python" false = tokenizeAux [] ("Python".push '\n') false :=
  claim_C10_whitespace_flush.1 '\n' [] "Python" (by decide) (by decide) (by decide)
    (by decide) (by decide)
end HnHiring
